import Mathlib

/-!
Verification development for a giveaway chat bot (single source file `bot.py`).

The bot keeps three documents in memory: `codes` (code key → Code record),
`users` (stringified user id → User record) and `banned_users` (list of
stringified user ids).  Python dictionaries are embedded as association lists
`List (String × α)` in insertion order (new keys are appended at the end, as
CPython dictionaries do); `str(...)` of a numeric Telegram id is embedded as
`toString` of a `Nat`; wall-clock timestamps (`datetime.now()`) and the random
suffix generator (`random.choices`) are passed in as explicit parameters.
-/

/-- Python `x or 'N/A'` on an optional string: `None` and the empty string are
falsy, anything else is returned unchanged. -/
def orNA : Option String → String
  | none => "N/A"
  | some s => if s = "" then "N/A" else s

/-- `str.upper()` on ASCII code keys, as used on every code argument:
uppercase every character. -/
def pyUpper (s : String) : String := String.mk (s.data.map Char.toUpper)

/-- Helper for `pyToInt`: read a non-empty all-digit character list as a
natural number. -/
def digitsToNat : List Char → Option Nat
  | [] => none
  | cs =>
    cs.foldl
      (fun acc c =>
        match acc with
        | none => none
        | some n => if c.isDigit then some (n * 10 + (c.toNat - 48)) else none)
      (some 0)

/-- Python `int(arg)` on a command argument (`bot.py` line 430): parse an
optionally-signed decimal string, `none` embedding the raised ValueError. -/
def pyToInt (s : String) : Option Int :=
  match s.data with
  | '-' :: rest => (digitsToNat rest).map (fun n => -(n : Int))
  | cs => (digitsToNat cs).map (fun n => (n : Int))

/-- The `redeemer` snapshot stored inside a Code when it is redeemed
(`bot.py` lines 155–161). -/
structure Redeemer where
  user_id : String
  username : String
  first_name : String
  last_name : String
  date : String
deriving DecidableEq, Repr

/-- A Code record (`bot.py` lines 365–370 / 446–451). -/
structure Code where
  prize : String
  redeemed : Bool
  redeemer : Option Redeemer
  created_date : String
deriving DecidableEq, Repr

/-- One entry of a user's `redeemed_codes` list (`bot.py` lines 164–168). -/
structure RedemptionRecord where
  code : String
  prize : String
  date : String
deriving DecidableEq, Repr

/-- A User record (`bot.py` lines 66–72). -/
structure User where
  username : String
  first_name : String
  last_name : String
  join_date : String
  redeemed_codes : List RedemptionRecord
deriving DecidableEq, Repr

/-- The Telegram identity delivered with each update (`update.effective_user`):
a numeric id plus optional username / first name / last name. -/
structure Identity where
  id : Nat
  username : Option String
  first_name : Option String
  last_name : Option String
deriving DecidableEq, Repr

/-- Association-list lookup: Python `d[k]` / `k in d` on a dict embedded as a
list of key-value pairs. -/
def alist_lookup {α : Type} : List (String × α) → String → Option α
  | [], _ => none
  | (k, v) :: t, key => if k = key then some v else alist_lookup t key

/-- Pointwise update of the value stored at key `k` (Python `d[k] = f(d[k])`
on a key that is present; entries with other keys are untouched). -/
def alist_update {α : Type} (m : List (String × α)) (k : String) (f : α → α) :
    List (String × α) :=
  match m with
  | [] => []
  | (k0, v) :: t =>
    if k0 = k then (k0, f v) :: alist_update t k f
    else (k0, v) :: alist_update t k f

/-- Python `del d[k]`: drop the entry with key `k`. -/
def alist_erase {α : Type} (m : List (String × α)) (k : String) :
    List (String × α) :=
  m.filter (fun p => !(p.1 = k : Bool))

/-- Map a function over every stored value, keeping the keys. -/
def alist_mapv {α : Type} (f : α → α) (m : List (String × α)) :
    List (String × α) :=
  m.map (fun p => (p.1, f p.2))

/-- The keys of an association list, in order. -/
def alist_keys {α : Type} (m : List (String × α)) : List String :=
  m.map Prod.fst

/-- The three in-memory documents of `GiveawayBot` (`bot.py` lines 32–34). -/
structure BotState where
  codes : List (String × Code)
  users : List (String × User)
  banned : List String
deriving DecidableEq, Repr

/-- The state of a freshly constructed bot when no persisted files exist:
`load_data` returns the defaults `{}`, `{}`, `[]`. -/
def emptyBot : BotState := ⟨[], [], []⟩

/-- `is_banned` (`bot.py` lines 58–60): membership of `str(user_id)` in the
banned list. -/
def is_banned (s : BotState) (uid : Nat) : Bool :=
  (toString uid) ∈ s.banned

/-- The User record built by `register_user` for an absent id
(`bot.py` lines 66–72). -/
def mkUser (u : Identity) (now : String) : User :=
  ⟨orNA u.username, orNA u.first_name, orNA u.last_name, now, []⟩

/-- `register_user` (`bot.py` lines 62–73): insert a fresh User only when the
stringified id is absent.  The returned Bool records whether the Users
document was persisted (`save_data` runs only on the inserting branch). -/
def register_user (s : BotState) (u : Identity) (now : String) :
    BotState × Bool :=
  let uid := toString u.id
  match alist_lookup s.users uid with
  | some _ => (s, false)
  | none => ({ s with users := s.users ++ [(uid, mkUser u now)] }, true)

/-- The Redeemer snapshot attached on a successful redemption
(`bot.py` lines 155–161). -/
def mkRedeemer (u : Identity) (now : String) : Redeemer :=
  ⟨toString u.id, orNA u.username, orNA u.first_name, orNA u.last_name, now⟩

/-- Outcome of the `/redeem` handler, one constructor per `return` path. -/
inductive RedeemResult where
  | banned
  | usage
  | invalidCode
  | alreadyRedeemed (info : Option Redeemer)
  | success (prize : String)
deriving DecidableEq, Repr

/-- The `/redeem` handler (`bot.py` lines 115–197).  Steps in source order:
ban check, user registration, argument check, uppercasing of the raw code,
existence check, redeemed-flag check (returning the stored `redeemer` field),
then the mutation: mark the code redeemed with a fresh snapshot and append a
RedemptionRecord to the caller's `redeemed_codes`. -/
def redeem (s : BotState) (u : Identity) (args : List String) (now : String) :
    BotState × RedeemResult :=
  if is_banned s u.id then (s, .banned)
  else
    let s1 := (register_user s u now).1
    match args with
    | [] => (s1, .usage)
    | a :: _ =>
      let code := pyUpper a
      let uid := toString u.id
      match alist_lookup s1.codes code with
      | none => (s1, .invalidCode)
      | some c =>
        if c.redeemed then (s1, .alreadyRedeemed c.redeemer)
        else
          let c2 : Code := { c with redeemed := true,
                                    redeemer := some (mkRedeemer u now) }
          let rec0 : RedemptionRecord := ⟨code, c.prize, now⟩
          ({ s1 with
              codes := alist_update s1.codes code (fun _ => c2),
              users := alist_update s1.users uid
                (fun usr => { usr with
                  redeemed_codes := usr.redeemed_codes ++ [rec0] }) },
           .success c.prize)

/-- A Code as created by `/addcode` and `/gencode`: sentinel prize, not
redeemed, no redeemer (`bot.py` lines 365–370, 446–451). -/
def freshCode (now : String) : Code :=
  ⟨"No prize set", false, none, now⟩

/-- Outcome of the `/addcode` handler. -/
inductive AddcodeResult where
  | notAdmin
  | usage
  | duplicate
  | ok
deriving DecidableEq, Repr

/-- The `/addcode` handler (`bot.py` lines 349–374): admin gate, argument
check, uppercasing, duplicate check, insertion of a fresh Code. -/
def addcode (adminId caller : String) (s : BotState) (args : List String)
    (now : String) : BotState × AddcodeResult :=
  if caller = adminId then
    match args with
    | [] => (s, .usage)
    | a :: _ =>
      let code := pyUpper a
      match alist_lookup s.codes code with
      | some _ => (s, .duplicate)
      | none => ({ s with codes := s.codes ++ [(code, freshCode now)] }, .ok)
  else (s, .notAdmin)

/-- Outcome of the `/addprize` handler. -/
inductive AddprizeResult where
  | notAdmin
  | usage
  | unknownCode
  | ok
deriving DecidableEq, Repr

/-- The `/addprize` handler (`bot.py` lines 376–396): sets the prize text of
an existing code; the prize is `' '.join(args[1:])`. -/
def addprize (adminId caller : String) (s : BotState) (args : List String) :
    BotState × AddprizeResult :=
  if caller = adminId then
    match args with
    | a :: b :: rest =>
      let code := pyUpper a
      let prize := " ".intercalate (b :: rest)
      match alist_lookup s.codes code with
      | none => (s, .unknownCode)
      | some _ =>
        ({ s with
            codes := alist_update s.codes code
              (fun c => { c with prize := prize }) }, .ok)
    | _ => (s, .usage)
  else (s, .notAdmin)

/-- Outcome of the `/delcode` handler. -/
inductive DelcodeResult where
  | notAdmin
  | usage
  | unknownCode
  | ok
deriving DecidableEq, Repr

/-- The `/delcode` handler (`bot.py` lines 398–417): admin gate, argument
check, uppercasing, existence check, deletion of the entry. -/
def delcode (adminId caller : String) (s : BotState) (args : List String) :
    BotState × DelcodeResult :=
  if caller = adminId then
    match args with
    | [] => (s, .usage)
    | a :: _ =>
      let code := pyUpper a
      match alist_lookup s.codes code with
      | none => (s, .unknownCode)
      | some _ => ({ s with codes := alist_erase s.codes code }, .ok)
  else (s, .notAdmin)

/-- Outcome of the `/gencode` handler. -/
inductive GencodeResult where
  | notAdmin
  | usage
  | valueError
  | limitExceeded
  | ok (generated : List String)
deriving DecidableEq, Repr

/-- The inner `while True` collision-avoidance loop of `/gencode`
(`bot.py` lines 440–444): draw suffixes `draws i, draws (i+1), ...` until
`pre ++ suffix` is not an existing key.  The Python loop is unbounded; `fuel`
bounds the embedding, `none` meaning the loop did not finish within `fuel`
draws.  Returns the fresh code together with the next draw index. -/
def findFresh (codes : List (String × Code)) (pre : String)
    (draws : Nat → String) : Nat → Nat → Option (String × Nat)
  | 0, _ => none
  | fuel + 1, i =>
    let code := pre ++ draws i
    if (alist_lookup codes code).isNone then some (code, i + 1)
    else findFresh codes pre draws fuel (i + 1)

/-- The `for _ in range(num)` loop of `/gencode` (`bot.py` lines 439–452):
each iteration draws a fresh code and inserts it with the sentinel prize.
Returns the generated codes in order together with the final codes document.
-/
def genLoop (pre now : String) (draws : Nat → String) (fuel : Nat) :
    Nat → Nat → List (String × Code) → Option (List String × List (String × Code))
  | 0, _, codes => some ([], codes)
  | n + 1, i, codes =>
    match findFresh codes pre draws fuel i with
    | none => none
    | some (code, i2) =>
      match genLoop pre now draws fuel n i2 (codes ++ [(code, freshCode now)]) with
      | none => none
      | some (gen, final) => some (code :: gen, final)

/-- The `/gencode` handler (`bot.py` lines 419–463): admin gate, arity check,
`int(...)` parse (ValueError branch), uppercasing of the second argument,
the `num > 50` ceiling, then the generation loop.  `range(num)` of a
non-positive `num` is empty, hence `num.toNat` iterations.  The outer `none`
models divergence of the unbounded collision loop. -/
def gencode (adminId caller : String) (s : BotState) (args : List String)
    (now : String) (draws : Nat → String) (fuel : Nat) :
    Option (BotState × GencodeResult) :=
  if caller = adminId then
    match args with
    | a :: b :: _ =>
      match pyToInt a with
      | none => some (s, .valueError)
      | some num =>
        let pre := pyUpper b
        if num > 50 then some (s, .limitExceeded)
        else
          match genLoop pre now draws fuel num.toNat 0 s.codes with
          | none => none
          | some (gen, codes2) => some ({ s with codes := codes2 }, .ok gen)
    | _ => some (s, .usage)
  else some (s, .notAdmin)

/-- Outcome of the `/ban` handler, one constructor per reply path. -/
inductive BanResult where
  | notAdmin
  | usage
  | cannotBanSelf
  | nowBanned
  | alreadyBanned
  | invalidArgument
deriving DecidableEq, Repr

/-- The `str(context.args[0])` conversion in `/ban` (`bot.py` line 503).
`context.args` holds strings, and Python `str` applied to a string never
raises, so the conversion always succeeds; the `except ValueError` branch of
the handler corresponds to this function returning `none`. -/
def str_of_arg (a : String) : Option String := some a

/-- The `/ban` handler (`bot.py` lines 492–517): admin gate, argument check,
`str` conversion (whose failure would reply with the Invalid-user-ID error),
self-ban check against `ADMIN_ID`, then insertion unless already banned. -/
def ban_user (adminId caller : String) (s : BotState) (args : List String) :
    BotState × BanResult :=
  if caller = adminId then
    match args with
    | [] => (s, .usage)
    | a :: _ =>
      match str_of_arg a with
      | none => (s, .invalidArgument)
      | some uid =>
        if uid = adminId then (s, .cannotBanSelf)
        else if uid ∈ s.banned then (s, .alreadyBanned)
        else ({ s with banned := s.banned ++ [uid] }, .nowBanned)
  else (s, .notAdmin)

/-- Outcome of the `/unban` handler. -/
inductive UnbanResult where
  | notAdmin
  | usage
  | nowUnbanned
  | notBanned
deriving DecidableEq, Repr

/-- The `/unban` handler (`bot.py` lines 519–540): removes the first
occurrence of the id from the banned list (Python `list.remove`). -/
def unban_user (adminId caller : String) (s : BotState) (args : List String) :
    BotState × UnbanResult :=
  if caller = adminId then
    match args with
    | [] => (s, .usage)
    | a :: _ =>
      match str_of_arg a with
      | none => (s, .notBanned)
      | some uid =>
        if uid ∈ s.banned then
          ({ s with banned := s.banned.erase uid }, .nowUnbanned)
        else (s, .notBanned)
  else (s, .notAdmin)

/-- The `/resetgiveaway` handler (`bot.py` lines 542–560): on every Code set
`redeemed := false` and `redeemer := None`; on every User set
`redeemed_codes := []`.  The returned Bool is true when the caller passed the
admin gate and the reset ran. -/
def resetgiveaway (adminId caller : String) (s : BotState) :
    BotState × Bool :=
  if caller = adminId then
    ({ s with
        codes := alist_mapv
          (fun c => { c with redeemed := false, redeemer := none }) s.codes,
        users := alist_mapv
          (fun u => { u with redeemed_codes := [] }) s.users }, true)
  else (s, false)

/-- The numbers interpolated into the `/stats` reply (`bot.py` lines
305–324).  The success rate is the exact rational value of
`redeemed_codes/total_codes*100` (Python computes it in floating point and
prints one decimal; the exact ratio is what the division denotes). -/
structure StatsReport where
  total_codes : Nat
  redeemed_codes : Nat
  available_codes : Int
  total_users : Nat
  banned_count : Nat
  active_users : Int
  success_rate : ℚ
deriving DecidableEq, Repr

/-- Outcome of the `/stats` handler. -/
inductive StatsResult where
  | notAdmin
  | zeroDivisionError
  | report (r : StatsReport)
deriving DecidableEq, Repr

/-- The `/stats` handler (`bot.py` lines 299–326).  The f-string on line 323
reads `{(redeemed_codes/total_codes*100):.1f}% if total_codes > 0 else 0%`:
only the part between the braces is evaluated — the trailing
`if total_codes > 0 else 0%` is literal text of the message, not code — so
the division runs unconditionally and raises ZeroDivisionError whenever the
codes document is empty.  `zeroDivisionError` embeds that raise. -/
def stats (adminId caller : String) (s : BotState) : StatsResult :=
  if caller = adminId then
    let total := s.codes.length
    let redeemed := s.codes.countP (fun p => p.2.redeemed)
    if total = 0 then .zeroDivisionError
    else
      .report ⟨total, redeemed, (total : Int) - (redeemed : Int),
               s.users.length, s.banned.length,
               (s.users.length : Int) - (s.banned.length : Int),
               (redeemed : ℚ) / (total : ℚ) * 100⟩
  else .notAdmin

/-- One inbound command relevant to the state-machine claims, carrying the
caller, the parsed arguments, and the ambient inputs (timestamp, random
draws, loop fuel) of that call. -/
inductive Op where
  | startOp (u : Identity) (now : String)
  | redeemOp (u : Identity) (args : List String) (now : String)
  | addcodeOp (caller : String) (args : List String) (now : String)
  | addprizeOp (caller : String) (args : List String)
  | delcodeOp (caller : String) (args : List String)
  | gencodeOp (caller : String) (args : List String) (now : String)
      (draws : Nat → String) (fuel : Nat)
  | resetOp (caller : String)
  | banOp (caller : String) (args : List String)
  | unbanOp (caller : String) (args : List String)

/-- Whether an operation is a `/delcode` call. -/
def Op.isDelcode : Op → Bool
  | .delcodeOp _ _ => true
  | _ => false

/-- The state transition of one operation.  `/start` registers the user
unless banned (`bot.py` lines 78–86).  For `/gencode`, a run whose collision
loop does not finish within its fuel leaves the state unchanged (the real
process never returns from it). -/
def step (adminId : String) (s : BotState) : Op → BotState
  | .startOp u now =>
      if is_banned s u.id then s else (register_user s u now).1
  | .redeemOp u args now => (redeem s u args now).1
  | .addcodeOp caller args now => (addcode adminId caller s args now).1
  | .addprizeOp caller args => (addprize adminId caller s args).1
  | .delcodeOp caller args => (delcode adminId caller s args).1
  | .gencodeOp caller args now draws fuel =>
      match gencode adminId caller s args now draws fuel with
      | none => s
      | some (s2, _) => s2
  | .resetOp caller => (resetgiveaway adminId caller s).1
  | .banOp caller args => (ban_user adminId caller s args).1
  | .unbanOp caller args => (unban_user adminId caller s args).1

/-- Run a sequence of operations from a state. -/
def run (adminId : String) (ops : List Op) (s : BotState) : BotState :=
  ops.foldl (step adminId) s

/-- Number of RedemptionRecords stored for the (stringified) user id `uid`:
the length of that user's `redeemed_codes` list, 0 when unregistered. -/
def userRecordCount (s : BotState) (uid : String) : Nat :=
  match alist_lookup s.users uid with
  | none => 0
  | some u => u.redeemed_codes.length

/-- Whether a codes-document entry records `uid` as its redeemer. -/
def redeemerIs (uid : String) (p : String × Code) : Bool :=
  match p.2.redeemer with
  | some r => r.user_id = uid
  | none => false

/-- Number of Codes whose redeemer snapshot carries user id `uid`. -/
def codesRedeemedBy (s : BotState) (uid : String) : Nat :=
  s.codes.countP (redeemerIs uid)


/-- Fold a list of `/redeem` calls; each call carries the identity, the
argument list and the timestamp of that call. -/
def runRedeems (s : BotState)
    (calls : List (Identity × List String × String)) : BotState :=
  calls.foldl (fun st c => (redeem st c.1 c.2.1 c.2.2).1) s

/-- The strengthened state invariant behind the record/code counting claim:
the two dictionaries have no duplicate keys (as Python dicts cannot), an
unredeemed Code carries no redeemer snapshot, and every user id has as many
RedemptionRecords as Codes naming it as redeemer. -/
def stateInv (s : BotState) : Prop :=
  (alist_keys s.codes).Nodup ∧ (alist_keys s.users).Nodup ∧
  (∀ p ∈ s.codes, p.2.redeemed = false → p.2.redeemer = none) ∧
  (∀ uid, userRecordCount s uid = codesRedeemedBy s uid)

theorem alist_lookup_eq_none_iff {α : Type} (m : List (String × α)) (k : String) :
    alist_lookup m k = none ↔ k ∉ alist_keys m := by
  induction m with
  | nil => simp [alist_lookup, alist_keys]
  | cons hd t ih =>
    obtain ⟨k0, v0⟩ := hd
    by_cases hk : k0 = k
    · subst hk
      simp [alist_lookup, alist_keys]
    · simp [alist_lookup, alist_keys, hk, Ne.symm hk] at ih ⊢
      exact ih

theorem alist_lookup_mem {α : Type} {m : List (String × α)} {k : String}
    {v : α} (h : alist_lookup m k = some v) : (k, v) ∈ m := by
  induction m with
  | nil => simp [alist_lookup] at h
  | cons hd t ih =>
    obtain ⟨k0, v0⟩ := hd
    by_cases hk : k0 = k
    · subst hk
      simp [alist_lookup] at h
      subst h
      exact List.mem_cons_self _ _
    · simp [alist_lookup, hk] at h
      exact List.mem_cons_of_mem _ (ih h)

theorem alist_lookup_append_of_some {α : Type} {m : List (String × α)}
    {k : String} {v : α} (l : List (String × α))
    (h : alist_lookup m k = some v) : alist_lookup (m ++ l) k = some v := by
  induction m with
  | nil => simp [alist_lookup] at h
  | cons hd t ih =>
    obtain ⟨k0, v0⟩ := hd
    by_cases hk : k0 = k <;> simp [alist_lookup, hk] at h ⊢ <;> simp_all

theorem alist_lookup_append_singleton_self {α : Type} {m : List (String × α)}
    {k : String} (v : α) (h : alist_lookup m k = none) :
    alist_lookup (m ++ [(k, v)]) k = some v := by
  induction m with
  | nil => simp [alist_lookup]
  | cons hd t ih =>
    obtain ⟨k0, v0⟩ := hd
    by_cases hk : k0 = k <;> simp [alist_lookup, hk] at h ⊢
    exact ih h

theorem alist_lookup_append_singleton_ne {α : Type} (m : List (String × α))
    {k k2 : String} (v : α) (h : k ≠ k2) :
    alist_lookup (m ++ [(k, v)]) k2 = alist_lookup m k2 := by
  induction m with
  | nil => simp [alist_lookup, h]
  | cons hd t ih =>
    obtain ⟨k0, v0⟩ := hd
    by_cases hk : k0 = k2 <;> simp [alist_lookup, hk, ih]

theorem alist_lookup_update_self {α : Type} (m : List (String × α))
    (k : String) (f : α → α) :
    alist_lookup (alist_update m k f) k = (alist_lookup m k).map f := by
  induction m with
  | nil => simp [alist_lookup, alist_update]
  | cons hd t ih =>
    obtain ⟨k0, v0⟩ := hd
    by_cases hk : k0 = k <;> simp [alist_lookup, alist_update, hk, ih]

theorem alist_lookup_update_ne {α : Type} (m : List (String × α))
    {k k2 : String} (f : α → α) (h : k2 ≠ k) :
    alist_lookup (alist_update m k f) k2 = alist_lookup m k2 := by
  induction m with
  | nil => simp [alist_lookup, alist_update]
  | cons hd t ih =>
    obtain ⟨k0, v0⟩ := hd
    by_cases hk : k0 = k
    · subst hk
      simp [alist_lookup, alist_update, Ne.symm h, ih]
    · by_cases hk2 : k0 = k2
      · subst hk2
        simp [alist_lookup, alist_update, hk, ih]
      · simp [alist_lookup, alist_update, hk, hk2, ih]

theorem alist_update_of_not_mem {α : Type} {m : List (String × α)}
    {k : String} (f : α → α) (h : k ∉ alist_keys m) :
    alist_update m k f = m := by
  induction m with
  | nil => simp [alist_update]
  | cons hd t ih =>
    obtain ⟨k0, v0⟩ := hd
    simp [alist_keys] at h ih
    have hk : ¬ k0 = k := fun h2 => h.1 h2.symm
    simp [alist_update, hk, ih h.2]

theorem alist_keys_update {α : Type} (m : List (String × α)) (k : String)
    (f : α → α) : alist_keys (alist_update m k f) = alist_keys m := by
  induction m with
  | nil => rfl
  | cons hd t ih =>
    obtain ⟨k0, v0⟩ := hd
    by_cases hk : k0 = k <;>
      · simp [alist_keys, alist_update, hk] at ih ⊢
        exact ih

theorem alist_keys_append {α : Type} (m l : List (String × α)) :
    alist_keys (m ++ l) = alist_keys m ++ alist_keys l := by
  simp [alist_keys]

theorem alist_keys_mapv {α : Type} (f : α → α) (m : List (String × α)) :
    alist_keys (alist_mapv f m) = alist_keys m := by
  simp [alist_keys, alist_mapv]

theorem alist_lookup_mapv {α : Type} (f : α → α) (m : List (String × α))
    (k : String) :
    alist_lookup (alist_mapv f m) k = (alist_lookup m k).map f := by
  induction m with
  | nil => simp [alist_lookup, alist_mapv]
  | cons hd t ih =>
    obtain ⟨k0, v0⟩ := hd
    by_cases hk : k0 = k
    · simp [alist_lookup, alist_mapv, hk]
    · simp [alist_lookup, alist_mapv, hk] at ih ⊢
      simpa [alist_mapv] using ih

theorem countP_alist_mapv {α : Type} (f : α → α) (m : List (String × α))
    (p : String × α → Bool) :
    (alist_mapv f m).countP p = m.countP (fun x => p (x.1, f x.2)) := by
  induction m with
  | nil => rfl
  | cons hd t ih =>
    obtain ⟨k0, v0⟩ := hd
    simp [alist_mapv, List.countP_cons] at ih ⊢
    simp [ih]

theorem countP_alist_update {α : Type} {m : List (String × α)} {k : String}
    {v : α} (f : α → α) (p : String × α → Bool)
    (hnd : (alist_keys m).Nodup) (hlk : alist_lookup m k = some v) :
    (alist_update m k f).countP p + (if p (k, v) then 1 else 0) =
      m.countP p + (if p (k, f v) then 1 else 0) := by
  induction m with
  | nil => simp [alist_lookup] at hlk
  | cons hd t ih =>
    obtain ⟨k0, v0⟩ := hd
    simp [alist_keys] at hnd
    by_cases hk : k0 = k
    · subst hk
      simp [alist_lookup] at hlk
      subst hlk
      have hnotin : k0 ∉ alist_keys t := by
        intro hmem
        simp [alist_keys] at hmem
        obtain ⟨x, hx⟩ := hmem
        exact hnd.1 x hx
      have ht : alist_update t k0 f = t := alist_update_of_not_mem f hnotin
      simp [alist_update, ht, List.countP_cons]
      omega
    · simp [alist_lookup, hk] at hlk
      have h2 := ih hnd.2 hlk
      simp [alist_update, hk, List.countP_cons]
      omega

theorem alist_keys_nodup_append_singleton {α : Type} {m : List (String × α)}
    {k : String} (v : α) (hnd : (alist_keys m).Nodup)
    (h : alist_lookup m k = none) :
    (alist_keys (m ++ [(k, v)])).Nodup := by
  have hk : k ∉ alist_keys m := (alist_lookup_eq_none_iff m k).mp h
  rw [alist_keys_append]
  apply List.Nodup.append hnd (List.nodup_singleton k)
  intro a ha hb
  simp [alist_keys] at hb
  subst hb
  exact hk ha

theorem register_user_codes (s : BotState) (u : Identity) (now : String) :
    ((register_user s u now).1).codes = s.codes := by
  cases h : alist_lookup s.users (toString u.id) <;>
    simp [register_user, h]

theorem register_user_banned (s : BotState) (u : Identity) (now : String) :
    ((register_user s u now).1).banned = s.banned := by
  cases h : alist_lookup s.users (toString u.id) <;>
    simp [register_user, h]

theorem register_user_users_cases (s : BotState) (u : Identity) (now : String) :
    ((register_user s u now).1).users = s.users ∨
      (alist_lookup s.users (toString u.id) = none ∧
       ((register_user s u now).1).users =
         s.users ++ [(toString u.id, mkUser u now)]) := by
  cases h : alist_lookup s.users (toString u.id)
  · exact Or.inr ⟨rfl, by simp [register_user, h]⟩
  · exact Or.inl (by simp [register_user, h])

theorem redeem_of_banned {s : BotState} {u : Identity}
    (args : List String) (now : String) (h : is_banned s u.id = true) :
    redeem s u args now = (s, .banned) := by
  simp [redeem, h]

theorem redeem_of_invalid {s : BotState} {u : Identity} {a : String}
    (rest : List String) (now : String) (hb : is_banned s u.id = false)
    (hc : alist_lookup s.codes (pyUpper a) = none) :
    redeem s u (a :: rest) now = ((register_user s u now).1, .invalidCode) := by
  cases h2 : alist_lookup s.users (toString u.id) <;>
    simp [redeem, hb, register_user, h2, hc]

theorem redeem_of_already {s : BotState} {u : Identity} {a : String}
    {c : Code} (rest : List String) (now : String)
    (hb : is_banned s u.id = false)
    (hc : alist_lookup s.codes (pyUpper a) = some c)
    (hr : c.redeemed = true) :
    redeem s u (a :: rest) now =
      ((register_user s u now).1, .alreadyRedeemed c.redeemer) := by
  cases h2 : alist_lookup s.users (toString u.id) <;>
    simp [redeem, hb, register_user, h2, hc, hr]

theorem redeem_of_success {s : BotState} {u : Identity} {a : String}
    {c : Code} (rest : List String) (now : String)
    (hb : is_banned s u.id = false)
    (hc : alist_lookup s.codes (pyUpper a) = some c)
    (hr : c.redeemed = false) :
    redeem s u (a :: rest) now =
      ({ codes := alist_update s.codes (pyUpper a)
           (fun _ => { c with redeemed := true,
                              redeemer := some (mkRedeemer u now) }),
         users := alist_update ((register_user s u now).1).users
           (toString u.id)
           (fun usr => { usr with redeemed_codes :=
              usr.redeemed_codes ++ [⟨pyUpper a, c.prize, now⟩] }),
         banned := s.banned }, .success c.prize) := by
  cases h2 : alist_lookup s.users (toString u.id) <;>
    simp [redeem, hb, register_user, h2, hc, hr]

theorem redeem_banned_unchanged (s : BotState) (u : Identity)
    (args : List String) (now : String) :
    ((redeem s u args now).1).banned = s.banned := by
  by_cases hb : is_banned s u.id
  · simp [redeem, hb]
  · cases h2 : alist_lookup s.users (toString u.id) <;>
      cases args with
      | nil => simp [redeem, hb, register_user, h2]
      | cons a rest =>
        cases hc : alist_lookup s.codes (pyUpper a) with
        | none => simp [redeem, hb, register_user, h2, hc]
        | some c =>
          by_cases hr : c.redeemed <;>
            simp [redeem, hb, register_user, h2, hc, hr]

theorem addcode_banned_unchanged (adminId caller : String) (s : BotState)
    (args : List String) (now : String) :
    ((addcode adminId caller s args now).1).banned = s.banned := by
  by_cases ha : caller = adminId
  · cases args with
    | nil => simp [addcode, ha]
    | cons a rest =>
      cases hc : alist_lookup s.codes (pyUpper a) <;> simp [addcode, ha, hc]
  · simp [addcode, ha]

theorem addprize_banned_unchanged (adminId caller : String) (s : BotState)
    (args : List String) :
    ((addprize adminId caller s args).1).banned = s.banned := by
  by_cases ha : caller = adminId
  · match args with
    | [] => simp [addprize, ha]
    | [a] => simp [addprize, ha]
    | a :: b :: rest =>
      cases hc : alist_lookup s.codes (pyUpper a) <;> simp [addprize, ha, hc]
  · simp [addprize, ha]

theorem delcode_banned_unchanged (adminId caller : String) (s : BotState)
    (args : List String) :
    ((delcode adminId caller s args).1).banned = s.banned := by
  by_cases ha : caller = adminId
  · cases args with
    | nil => simp [delcode, ha]
    | cons a rest =>
      cases hc : alist_lookup s.codes (pyUpper a) <;> simp [delcode, ha, hc]
  · simp [delcode, ha]

theorem gencode_banned_unchanged (adminId caller : String) (s : BotState)
    (args : List String) (now : String) (draws : Nat → String) (fuel : Nat)
    (s2 : BotState) (r : GencodeResult)
    (h : gencode adminId caller s args now draws fuel = some (s2, r)) :
    s2.banned = s.banned := by
  by_cases ha : caller = adminId
  · match args with
    | [] => simp [gencode, ha] at h; simp [← h.1]
    | [a] => simp [gencode, ha] at h; simp [← h.1]
    | a :: b :: rest =>
      simp [gencode, ha] at h
      cases hn : pyToInt a with
      | none => simp [hn] at h; simp [← h.1]
      | some num =>
        simp [hn] at h
        by_cases hl : num > 50
        · simp [hl] at h; simp [← h.1]
        · simp [hl] at h
          cases hg : genLoop (pyUpper b) now draws fuel num.toNat 0 s.codes with
          | none => simp [hg] at h
          | some pr => simp [hg] at h; simp [← h.1]
  · simp [gencode, ha] at h
    simp [← h.1]

theorem resetgiveaway_banned_unchanged (adminId caller : String)
    (s : BotState) :
    ((resetgiveaway adminId caller s).1).banned = s.banned := by
  by_cases ha : caller = adminId <;> simp [resetgiveaway, ha]

theorem redeem_preserves_redeemed_entry {s : BotState} {K : String} {c : Code}
    (u : Identity) (args : List String) (now : String)
    (h : alist_lookup s.codes K = some c) (hr : c.redeemed = true) :
    alist_lookup ((redeem s u args now).1).codes K = some c := by
  by_cases hb : is_banned s u.id
  · simp [redeem_of_banned args now hb, h]
  · cases args with
    | nil =>
      have : ((redeem s u [] now).1).codes = s.codes := by
        cases h2 : alist_lookup s.users (toString u.id) <;>
          simp [redeem, hb, register_user, h2]
      rw [this, h]
    | cons a rest =>
      cases hc : alist_lookup s.codes (pyUpper a) with
      | none =>
        rw [redeem_of_invalid rest now (by simpa using hb) hc]
        simpa [register_user_codes] using h
      | some c2 =>
        by_cases hr2 : c2.redeemed
        · rw [redeem_of_already rest now (by simpa using hb) hc hr2]
          simpa [register_user_codes] using h
        · rw [redeem_of_success rest now (by simpa using hb) hc
            (by simpa using hr2)]
          have hne : K ≠ pyUpper a := by
            intro he
            rw [he, hc] at h
            cases h
            exact hr2 (by simpa using hr)
          simpa [alist_lookup_update_ne s.codes _ hne] using h

theorem runRedeems_preserves_redeemed_entry {K : String} {c : Code}
    (calls : List (Identity × List String × String))
    (hr : c.redeemed = true) :
    ∀ s : BotState, alist_lookup s.codes K = some c →
      alist_lookup ((runRedeems s calls)).codes K = some c := by
  induction calls with
  | nil => intro s h; simpa [runRedeems] using h
  | cons hd t ih =>
    intro s h
    have h1 := redeem_preserves_redeemed_entry hd.1 hd.2.1 hd.2.2 h hr
    simpa [runRedeems] using ih _ h1

theorem redeem_twice_first_snapshot_kept {s : BotState} {u1 u2 : Identity}
    {a1 a2 : String} {c : Code} (r1 r2 : List String) (now1 now2 : String)
    (hb1 : is_banned s u1.id = false)
    (hc : alist_lookup s.codes (pyUpper a1) = some c)
    (hr : c.redeemed = false)
    (hup : pyUpper a2 = pyUpper a1)
    (hb2 : is_banned s u2.id = false) :
    (redeem s u1 (a1 :: r1) now1).2 = .success c.prize ∧
    alist_lookup ((redeem s u1 (a1 :: r1) now1).1).codes (pyUpper a1) =
      some { c with redeemed := true, redeemer := some (mkRedeemer u1 now1) } ∧
    (redeem ((redeem s u1 (a1 :: r1) now1).1) u2 (a2 :: r2) now2).2 =
      .alreadyRedeemed (some (mkRedeemer u1 now1)) ∧
    (redeem ((redeem s u1 (a1 :: r1) now1).1) u2 (a2 :: r2) now2).1.codes =
      ((redeem s u1 (a1 :: r1) now1).1).codes := by
  have hstep := redeem_of_success r1 now1 hb1 hc hr
  have hcodes1 :
      alist_lookup ((redeem s u1 (a1 :: r1) now1).1).codes (pyUpper a1) =
        some { c with redeemed := true,
                      redeemer := some (mkRedeemer u1 now1) } := by
    rw [hstep]
    simp [alist_lookup_update_self, hc]
  have hb2' : is_banned ((redeem s u1 (a1 :: r1) now1).1) u2.id = false := by
    unfold is_banned at hb2 ⊢
    rw [redeem_banned_unchanged]
    exact hb2
  have hsecond := redeem_of_already r2 now2 hb2'
    (by rw [hup]; exact hcodes1) (by rfl)
  refine ⟨by rw [hstep], hcodes1, ?_, ?_⟩
  · rw [hsecond]
  · rw [hsecond, register_user_codes]

theorem alist_lookup_append_of_none {α : Type} {m : List (String × α)}
    {k : String} (l : List (String × α)) (h : alist_lookup m k = none) :
    alist_lookup (m ++ l) k = alist_lookup l k := by
  induction m with
  | nil => simp
  | cons hd t ih =>
    obtain ⟨k0, v0⟩ := hd
    by_cases hk : k0 = k <;> simp [alist_lookup, hk] at h ⊢
    exact ih h

theorem alist_lookup_map_const {α : Type} (x : α) (gen : List String)
    {c : String} (h : c ∈ gen) :
    alist_lookup (gen.map (fun k => (k, x))) c = some x := by
  induction gen with
  | nil => simp at h
  | cons hd t ih =>
    by_cases hk : hd = c
    · simp [alist_lookup, hk]
    · have h2 : c ∈ t := by
        rcases List.mem_cons.mp h with h3 | h3
        · exact absurd h3.symm hk
        · exact h3
      simp [alist_lookup, hk]
      exact ih h2

theorem mem_alist_update {α : Type} {m : List (String × α)} {k : String}
    {f : α → α} {p : String × α} (h : p ∈ alist_update m k f) :
    p ∈ m ∨ ∃ v, (k, v) ∈ m ∧ p = (k, f v) := by
  induction m with
  | nil => simp [alist_update] at h
  | cons hd t ih =>
    obtain ⟨k0, v0⟩ := hd
    by_cases hk : k0 = k
    · subst hk
      simp only [alist_update, if_pos rfl] at h
      rcases List.mem_cons.mp h with hp | hp
    
      · exact Or.inr ⟨v0, List.mem_cons_self _ _, hp⟩
      · rcases ih hp with h2 | ⟨v, hv, hpe⟩
        · exact Or.inl (List.mem_cons_of_mem _ h2)
        · exact Or.inr ⟨v, List.mem_cons_of_mem _ hv, hpe⟩
    · simp only [alist_update, if_neg hk] at h
      rcases List.mem_cons.mp h with hp | hp
      · exact Or.inl (hp ▸ List.mem_cons_self _ _)
      · rcases ih hp with h2 | ⟨v, hv, hpe⟩
        · exact Or.inl (List.mem_cons_of_mem _ h2)
        · exact Or.inr ⟨v, List.mem_cons_of_mem _ hv, hpe⟩

theorem findFresh_spec (codes : List (String × Code)) (pre : String)
    (draws : Nat → String) :
    ∀ (fuel i : Nat) (code : String) (i2 : Nat),
      findFresh codes pre draws fuel i = some (code, i2) →
      alist_lookup codes code = none ∧ ∃ suf, code = pre ++ suf := by
  intro fuel
  induction fuel with
  | zero => intro i code i2 h; simp [findFresh] at h
  | succ n ih =>
    intro i code i2 h
    by_cases hf : (alist_lookup codes (pre ++ draws i)).isNone
    · simp [findFresh, hf] at h
      obtain ⟨h1, h2⟩ := h
      subst h1
      exact ⟨Option.isNone_iff_eq_none.mp hf, draws i, rfl⟩
    · simp [findFresh, hf] at h
      exact ih (i + 1) code i2 h

theorem genLoop_spec (pre now : String) (draws : Nat → String) (fuel : Nat) :
    ∀ (n i : Nat) (codes : List (String × Code)) (gen : List String)
      (final : List (String × Code)),
      genLoop pre now draws fuel n i codes = some (gen, final) →
      final = codes ++ gen.map (fun c => (c, freshCode now)) ∧
      gen.length = n ∧
      gen.Nodup ∧
      (∀ c ∈ gen, alist_lookup codes c = none ∧ ∃ suf, c = pre ++ suf) := by
  intro n
  induction n with
  | zero =>
    intro i codes gen final h
    simp [genLoop] at h
    obtain ⟨h1, h2⟩ := h
    subst h1
    subst h2
    simp
  | succ n ih =>
    intro i codes gen final h
    simp only [genLoop] at h
    cases hf : findFresh codes pre draws fuel i with
    | none => simp [hf] at h
    | some pr =>
      obtain ⟨code, i2⟩ := pr
      simp only [hf] at h
      cases hg : genLoop pre now draws fuel n i2
          (codes ++ [(code, freshCode now)]) with
      | none => simp [hg] at h
      | some pr2 =>
        obtain ⟨gen2, final2⟩ := pr2
        simp only [hg] at h
        simp at h
        obtain ⟨h1, h2⟩ := h
        subst h1
        subst h2
        obtain ⟨hfr, hsuf⟩ := findFresh_spec codes pre draws fuel i code i2 hf
        obtain ⟨e1, e2, e3, e4⟩ := ih _ _ _ _ hg
        refine ⟨by simp [e1], by simp [e2], ?_, ?_⟩
        · refine List.Nodup.cons ?_ e3
          intro hmem
          have h5 := (e4 code hmem).1
          rw [alist_lookup_append_singleton_self (freshCode now) hfr] at h5
          cases h5
        · intro c hc
          rcases List.mem_cons.mp hc with hc | hc
          · exact ⟨hc ▸ hfr, hc ▸ hsuf⟩
          · obtain ⟨hl, hs⟩ := e4 c hc
            refine ⟨?_, hs⟩
            cases hlc : alist_lookup codes c with
            | none => rfl
            | some v =>
              rw [alist_lookup_append_of_some _ hlc] at hl
              cases hl

theorem register_user_recordCount (s : BotState) (u : Identity) (now : String)
    (v : String) :
    userRecordCount ((register_user s u now).1) v = userRecordCount s v := by
  cases h : alist_lookup s.users (toString u.id) with
  | some usr => simp [register_user, h]
  | none =>
    by_cases hv : toString u.id = v
    · subst hv
      simp [register_user, h, userRecordCount,
        alist_lookup_append_singleton_self _ h, mkUser]
    · simp [register_user, h, userRecordCount,
        alist_lookup_append_singleton_ne _ _ hv]

theorem register_user_lookup_self (s : BotState) (u : Identity) (now : String) :
    ∃ usr, alist_lookup ((register_user s u now).1).users (toString u.id) =
        some usr ∧
      usr.redeemed_codes.length = userRecordCount s (toString u.id) := by
  cases h : alist_lookup s.users (toString u.id) with
  | some usr => exact ⟨usr, by simp [register_user, h], by simp [userRecordCount, h]⟩
  | none =>
    refine ⟨mkUser u now, ?_, by simp [userRecordCount, h, mkUser]⟩
    simp [register_user, h]
    exact alist_lookup_append_singleton_self _ h

theorem codesRedeemedBy_register (s : BotState) (u : Identity) (now : String)
    (v : String) :
    codesRedeemedBy ((register_user s u now).1) v = codesRedeemedBy s v := by
  simp [codesRedeemedBy, register_user_codes]

theorem stateInv_register {s : BotState} (u : Identity) (now : String)
    (h : stateInv s) : stateInv ((register_user s u now).1) := by
  obtain ⟨h1, h2, h3, h4⟩ := h
  refine ⟨?_, ?_, ?_, ?_⟩
  · simpa [register_user_codes] using h1
  · cases hl : alist_lookup s.users (toString u.id) with
    | some usr => simpa [register_user, hl] using h2
    | none =>
      simp [register_user, hl]
      exact alist_keys_nodup_append_singleton _ h2 hl
  · simpa [register_user_codes] using h3
  · intro v
    rw [register_user_recordCount, codesRedeemedBy_register]
    exact h4 v

theorem stateInv_redeem {s : BotState} (u : Identity) (args : List String)
    (now : String) (h : stateInv s) : stateInv ((redeem s u args now).1) := by
  by_cases hb : is_banned s u.id
  · rwa [redeem_of_banned args now hb]
  · have hb2 : is_banned s u.id = false := by simpa using hb
    cases args with
    | nil =>
      have he : ((redeem s u [] now).1) = (register_user s u now).1 := by
        cases h2 : alist_lookup s.users (toString u.id) <;>
          simp [redeem, hb2, register_user, h2]
      rw [he]
      exact stateInv_register u now h
    | cons a rest =>
      cases hc : alist_lookup s.codes (pyUpper a) with
      | none =>
        rw [redeem_of_invalid rest now hb2 hc]
        exact stateInv_register u now h
      | some c =>
        by_cases hr : c.redeemed
        · rw [redeem_of_already rest now hb2 hc hr]
          exact stateInv_register u now h
        · have hr2 : c.redeemed = false := by simpa using hr
          rw [redeem_of_success rest now hb2 hc hr2]
          obtain ⟨h1, h2, h3, h4⟩ := h
          obtain ⟨hr1, hr2u, hr3, hr4⟩ := stateInv_register u now ⟨h1, h2, h3, h4⟩
          obtain ⟨usr, husr, hlen⟩ := register_user_lookup_self s u now
          have hred : c.redeemer = none := h3 (pyUpper a, c) (alist_lookup_mem hc) hr2
          refine ⟨?_, ?_, ?_, ?_⟩
          · simpa [alist_keys_update] using h1
          · simpa [alist_keys_update] using hr2u
          · intro p hp
            rcases mem_alist_update hp with hp2 | ⟨v, hv, hpe⟩
            · exact h3 p hp2
            · intro hfalse
              rw [hpe] at hfalse
              simp at hfalse
          · intro v
            have hcount := countP_alist_update (m := s.codes)
              (fun _ => { c with redeemed := true, redeemer := some (mkRedeemer u now) })
              (redeemerIs v) h1 hc
            have hpc : redeemerIs v (pyUpper a, c) = false := by
              simp [redeemerIs, hred]
            rw [hpc] at hcount
            simp only [if_neg Bool.false_ne_true, Nat.add_zero] at hcount
            simp only [userRecordCount, codesRedeemedBy] at hr4 h4 ⊢
            by_cases hv : toString u.id = v
            · subst hv
              have hpc2 : redeemerIs (toString u.id)
                  ((pyUpper a, (fun _ => { c with redeemed := true, redeemer := some (mkRedeemer u now) }) c) :
                    String × Code) = true := by
                simp [redeemerIs, mkRedeemer]
              rw [hpc2, if_pos rfl] at hcount
              have hlkup := alist_lookup_update_self
                ((register_user s u now).1).users (toString u.id)
                (fun usr => { usr with redeemed_codes :=
                  usr.redeemed_codes ++ [⟨pyUpper a, c.prize, now⟩] })
              rw [husr] at hlkup
              rw [hlkup]
              have h4u := h4 (toString u.id)
              simp only [userRecordCount] at hlen
              simp
              omega
            · have hpc2 : redeemerIs v
                  ((pyUpper a, (fun _ => { c with redeemed := true, redeemer := some (mkRedeemer u now) }) c) :
                    String × Code) = false := by
                simp [redeemerIs, mkRedeemer, hv]
              rw [hpc2, if_neg Bool.false_ne_true, Nat.add_zero] at hcount
              have hlkup := alist_lookup_update_ne
                ((register_user s u now).1).users
                (fun usr => { usr with redeemed_codes :=
                  usr.redeemed_codes ++ [⟨pyUpper a, c.prize, now⟩] })
                (fun he => hv he.symm)
              rw [hlkup]
              rw [hcount]
              have h5 := hr4 v
              rw [register_user_codes] at h5
              exact h5

theorem countP_append_singleton {α : Type} (m : List (String × α))
    (x : String × α) (p : String × α → Bool) :
    (m ++ [x]).countP p = m.countP p + (if p x then 1 else 0) := by
  simp [List.countP_append, List.countP_cons]

theorem addcode_ok_state (adminId : String) {s : BotState} {a : String}
    (rest : List String) (now : String)
    (hc : alist_lookup s.codes (pyUpper a) = none) :
    addcode adminId adminId s (a :: rest) now =
      ({ s with codes := s.codes ++ [(pyUpper a, freshCode now)] }, .ok) := by
  simp [addcode, hc]

theorem stateInv_addcode (adminId caller : String) {s : BotState}
    (args : List String) (now : String) (h : stateInv s) :
    stateInv ((addcode adminId caller s args now).1) := by
  by_cases ha : caller = adminId
  · subst ha
    cases args with
    | nil => simpa [addcode] using h
    | cons a rest =>
      cases hc : alist_lookup s.codes (pyUpper a) with
      | some c => simpa [addcode, hc] using h
      | none =>
        rw [addcode_ok_state caller rest now hc]
        obtain ⟨h1, h2, h3, h4⟩ := h
        refine ⟨alist_keys_nodup_append_singleton _ h1 hc, h2, ?_, ?_⟩
        · intro p hp
          rcases List.mem_append.mp hp with hp | hp
          · exact h3 p hp
          · simp at hp
            subst hp
            simp [freshCode]
        · intro v
          simp only [userRecordCount, codesRedeemedBy]
          rw [countP_append_singleton]
          have hz : redeemerIs v (pyUpper a, freshCode now) = false := by
            simp [redeemerIs, freshCode]
          rw [hz]
          simp only [if_neg Bool.false_ne_true, Nat.add_zero]
          exact h4 v
  · simpa [addcode, ha] using h

theorem addprize_ok_state (adminId : String) {s : BotState} {a : String}
    (b : String) (rest : List String) {c : Code}
    (hc : alist_lookup s.codes (pyUpper a) = some c) :
    addprize adminId adminId s (a :: b :: rest) =
      ({ s with
          codes := alist_update s.codes (pyUpper a)
            (fun c0 => { c0 with prize := " ".intercalate (b :: rest) }) },
        .ok) := by
  simp [addprize, hc]

theorem stateInv_addprize (adminId caller : String) {s : BotState}
    (args : List String) (h : stateInv s) :
    stateInv ((addprize adminId caller s args).1) := by
  by_cases ha : caller = adminId
  · subst ha
    match args with
    | [] => simpa [addprize] using h
    | [a] => simpa [addprize] using h
    | a :: b :: rest =>
      cases hc : alist_lookup s.codes (pyUpper a) with
      | none => simpa [addprize, hc] using h
      | some c =>
        rw [addprize_ok_state caller b rest hc]
        obtain ⟨h1, h2, h3, h4⟩ := h
        refine ⟨by simpa [alist_keys_update] using h1, h2, ?_, ?_⟩
        · intro p hp
          rcases mem_alist_update hp with hp | ⟨v, hv, hpe⟩
          · exact h3 p hp
          · intro hfalse
            rw [hpe] at hfalse ⊢
            simp at hfalse ⊢
            exact h3 (pyUpper a, v) hv hfalse
        · intro v
          simp only [userRecordCount, codesRedeemedBy]
          have hcount := countP_alist_update (m := s.codes)
            (fun c0 => { c0 with prize := " ".intercalate (b :: rest) })
            (redeemerIs v) h1 hc
          have heq : redeemerIs v
              ((pyUpper a, (fun c0 => { c0 with prize := " ".intercalate (b :: rest) }) c) :
                String × Code) = redeemerIs v (pyUpper a, c) := by
            simp [redeemerIs]
          rw [heq] at hcount
          have hcount2 : (alist_update s.codes (pyUpper a)
              (fun c0 => { c0 with prize := " ".intercalate (b :: rest) })).countP
                (redeemerIs v) = s.codes.countP (redeemerIs v) :=
            Nat.add_right_cancel hcount
          rw [hcount2]
          exact h4 v
  · simpa [addprize, ha] using h

theorem alist_keys_map_fresh (gen : List String) (now : String) :
    alist_keys (gen.map (fun c => (c, freshCode now))) = gen := by
  induction gen with
  | nil => rfl
  | cons hd t ih => simpa [alist_keys] using ih

theorem stateInv_of_same_docs {s s2 : BotState} (hc : s2.codes = s.codes)
    (hu : s2.users = s.users) (h : stateInv s) : stateInv s2 := by
  obtain ⟨h1, h2, h3, h4⟩ := h
  refine ⟨by rw [hc]; exact h1, by rw [hu]; exact h2, by rw [hc]; exact h3, ?_⟩
  intro v
  simp only [userRecordCount, codesRedeemedBy, hc, hu]
  exact h4 v

theorem ban_user_codes_unchanged (adminId caller : String) (s : BotState)
    (args : List String) :
    ((ban_user adminId caller s args).1).codes = s.codes ∧
    ((ban_user adminId caller s args).1).users = s.users := by
  by_cases ha : caller = adminId
  · cases args with
    | nil => simp [ban_user, ha]
    | cons a rest =>
      by_cases h1 : a = adminId
      · simp [ban_user, ha, str_of_arg, h1]
      · by_cases h2 : a ∈ s.banned <;>
          simp [ban_user, ha, str_of_arg, h1, h2]
  · simp [ban_user, ha]

theorem unban_user_codes_unchanged (adminId caller : String) (s : BotState)
    (args : List String) :
    ((unban_user adminId caller s args).1).codes = s.codes ∧
    ((unban_user adminId caller s args).1).users = s.users := by
  by_cases ha : caller = adminId
  · cases args with
    | nil => simp [unban_user, ha]
    | cons a rest =>
      by_cases h2 : a ∈ s.banned <;>
        simp [unban_user, ha, str_of_arg, h2]
  · simp [unban_user, ha]

theorem stateInv_gencode (adminId caller : String) {s : BotState}
    (args : List String) (now : String) (draws : Nat → String) (fuel : Nat)
    {s2 : BotState} {r : GencodeResult}
    (hg : gencode adminId caller s args now draws fuel = some (s2, r))
    (h : stateInv s) : stateInv s2 := by
  by_cases ha : caller = adminId
  · match args with
    | [] => simp [gencode, ha] at hg; rw [← hg.1]; exact h
    | [a] => simp [gencode, ha] at hg; rw [← hg.1]; exact h
    | a :: b :: rest =>
      simp [gencode, ha] at hg
      cases hn : pyToInt a with
      | none => simp [hn] at hg; rw [← hg.1]; exact h
      | some num =>
        simp [hn] at hg
        by_cases hl : num > 50
        · simp [hl] at hg; rw [← hg.1]; exact h
        · simp [hl] at hg
          cases hloop : genLoop (pyUpper b) now draws fuel num.toNat 0 s.codes with
          | none => simp [hloop] at hg
          | some pr =>
            obtain ⟨gen, codes2⟩ := pr
            simp [hloop] at hg
            obtain ⟨e1, e2, e3, e4⟩ := genLoop_spec (pyUpper b) now draws fuel
              num.toNat 0 s.codes gen codes2 hloop
            rw [← hg.1]
            obtain ⟨h1, h2, h3, h4⟩ := h
            refine ⟨?_, h2, ?_, ?_⟩
            · rw [e1, alist_keys_append, alist_keys_map_fresh]
              refine List.Nodup.append h1 e3 ?_
              intro x hx hx2
              have h5 := (e4 x hx2).1
              exact (alist_lookup_eq_none_iff s.codes x).mp h5 hx
            · intro p hp
              rw [e1] at hp
              rcases List.mem_append.mp hp with hp | hp
              · exact h3 p hp
              · simp at hp
                obtain ⟨x, hx, hpe⟩ := hp
                rw [← hpe]
                simp [freshCode]
            · intro v
              simp only [userRecordCount, codesRedeemedBy]
              rw [e1, List.countP_append]
              have hz : (gen.map (fun c => (c, freshCode now))).countP
                  (redeemerIs v) = 0 := by
                rw [List.countP_eq_zero]
                intro p hp
                simp at hp
                obtain ⟨x, hx, hpe⟩ := hp
                rw [← hpe]
                simp [redeemerIs, freshCode]
              rw [hz, Nat.add_zero]
              exact h4 v
  · simp [gencode, ha] at hg
    rw [← hg.1]
    exact h

theorem resetgiveaway_state (adminId : String) (s : BotState) :
    (resetgiveaway adminId adminId s).1 =
      { s with
          codes := alist_mapv
            (fun c => { c with redeemed := false, redeemer := none }) s.codes,
          users := alist_mapv
            (fun u => { u with redeemed_codes := [] }) s.users } := by
  simp [resetgiveaway]

theorem stateInv_reset (adminId caller : String) {s : BotState}
    (h : stateInv s) : stateInv ((resetgiveaway adminId caller s).1) := by
  by_cases ha : caller = adminId
  · subst ha
    rw [resetgiveaway_state]
    obtain ⟨h1, h2, h3, h4⟩ := h
    refine ⟨by simpa [alist_keys_mapv] using h1,
      by simpa [alist_keys_mapv] using h2, ?_, ?_⟩
    · intro p hp
      simp [alist_mapv] at hp
      obtain ⟨k, c, hkc, hpe⟩ := hp
      rw [← hpe]
      simp
    · intro v
      simp only [userRecordCount, codesRedeemedBy]
      rw [alist_lookup_mapv, countP_alist_mapv]
      have hz : (s.codes.countP fun x =>
          redeemerIs v (x.1, { x.2 with redeemed := false, redeemer := none })) = 0 := by
        rw [List.countP_eq_zero]
        intro p hp
        simp [redeemerIs]
      rw [hz]
      cases hl : alist_lookup s.users v <;> simp
  · simpa [resetgiveaway, ha] using h

theorem stateInv_emptyBot : stateInv emptyBot := by
  refine ⟨by simp [emptyBot, alist_keys], by simp [emptyBot, alist_keys], ?_, ?_⟩
  · intro p hp
    simp [emptyBot] at hp
  · intro v
    simp [userRecordCount, codesRedeemedBy, emptyBot, alist_lookup]

theorem stateInv_step (adminId : String) {s : BotState} (op : Op)
    (hop : op.isDelcode = false) (h : stateInv s) :
    stateInv (step adminId s op) := by
  cases op with
  | startOp u now =>
    by_cases hb : is_banned s u.id
    · simpa [step, hb] using h
    · simp only [step, hb, Bool.false_eq_true, if_false]
      exact stateInv_register u now h
  | redeemOp u args now => exact stateInv_redeem u args now h
  | addcodeOp caller args now => exact stateInv_addcode adminId caller args now h
  | addprizeOp caller args => exact stateInv_addprize adminId caller args h
  | delcodeOp caller args => simp [Op.isDelcode] at hop
  | gencodeOp caller args now draws fuel =>
    simp only [step]
    cases hg : gencode adminId caller s args now draws fuel with
    | none => exact h
    | some pr =>
      obtain ⟨s2, r⟩ := pr
      exact stateInv_gencode adminId caller args now draws fuel hg h
  | resetOp caller => exact stateInv_reset adminId caller h
  | banOp caller args =>
    exact stateInv_of_same_docs (ban_user_codes_unchanged adminId caller s args).1
      (ban_user_codes_unchanged adminId caller s args).2 h
  | unbanOp caller args =>
    exact stateInv_of_same_docs (unban_user_codes_unchanged adminId caller s args).1
      (unban_user_codes_unchanged adminId caller s args).2 h

theorem stateInv_run (adminId : String) :
    ∀ (ops : List Op), (∀ op ∈ ops, op.isDelcode = false) →
      ∀ s : BotState, stateInv s → stateInv (run adminId ops s) := by
  intro ops
  induction ops with
  | nil => intro _ s h; simpa [run] using h
  | cons op t ih =>
    intro hops s h
    have h1 := stateInv_step adminId op (hops op (List.mem_cons_self _ _)) h
    have ht : ∀ op2 ∈ t, op2.isDelcode = false :=
      fun op2 h2 => hops op2 (List.mem_cons_of_mem _ h2)
    simpa [run] using ih ht _ h1

theorem step_admin_not_banned (adminId : String) {s : BotState} (op : Op)
    (h : adminId ∉ s.banned) : adminId ∉ (step adminId s op).banned := by
  cases op with
  | startOp u now =>
    by_cases hb : is_banned s u.id
    · simpa [step, hb] using h
    · simp only [step, hb, Bool.false_eq_true, if_false]
      rw [register_user_banned]
      exact h
  | redeemOp u args now =>
    simp only [step]
    rw [redeem_banned_unchanged]
    exact h
  | addcodeOp caller args now =>
    simp only [step]
    rw [addcode_banned_unchanged]
    exact h
  | addprizeOp caller args =>
    simp only [step]
    rw [addprize_banned_unchanged]
    exact h
  | delcodeOp caller args =>
    simp only [step]
    rw [delcode_banned_unchanged]
    exact h
  | gencodeOp caller args now draws fuel =>
    simp only [step]
    cases hg : gencode adminId caller s args now draws fuel with
    | none => exact h
    | some pr =>
      obtain ⟨s2, r⟩ := pr
      rw [gencode_banned_unchanged adminId caller s args now draws fuel s2 r hg]
      exact h
  | resetOp caller =>
    simp only [step]
    rw [resetgiveaway_banned_unchanged]
    exact h
  | banOp caller args =>
    simp only [step]
    by_cases hca : caller = adminId
    · cases args with
      | nil => simpa [ban_user, hca] using h
      | cons a rest =>
        by_cases hself : a = adminId
        · simpa [ban_user, hca, str_of_arg, hself] using h
        · by_cases hm : a ∈ s.banned
          · simpa [ban_user, hca, str_of_arg, hself, hm] using h
          · simp [ban_user, hca, str_of_arg, hself, hm]
            exact ⟨h, fun he => hself he.symm⟩
    · simpa [ban_user, hca] using h
  | unbanOp caller args =>
    simp only [step]
    by_cases hca : caller = adminId
    · cases args with
      | nil => simpa [unban_user, hca] using h
      | cons a rest =>
        by_cases hm : a ∈ s.banned
        · simp only [unban_user, hca, str_of_arg, hm, if_pos rfl]
          simp [hm]
          intro hmem
          exact h (List.mem_of_mem_erase hmem)
        · simpa [unban_user, hca, str_of_arg, hm] using h
    · simpa [unban_user, hca] using h

theorem run_admin_not_banned (adminId : String) :
    ∀ (ops : List Op) (s : BotState), adminId ∉ s.banned →
      adminId ∉ (run adminId ops s).banned := by
  intro ops
  induction ops with
  | nil => intro s h; simpa [run] using h
  | cons op t ih =>
    intro s h
    have h1 := step_admin_not_banned adminId op h
    simpa [run] using ih _ h1

/-- C1: a second redemption attempt on a code whose redeemed flag is already
true fails with AlreadyRedeemed and returns the first claimant's Redeemer
snapshot unchanged, and no further sequence of redeem calls ever changes the
stored snapshot of that code. -/
theorem redeem_first_come_first_served (s : BotState) (u1 u2 : Identity)
    (a1 a2 : String) (r1 r2 : List String) (now1 now2 : String) (c : Code)
    (hb1 : is_banned s u1.id = false)
    (hc : alist_lookup s.codes (pyUpper a1) = some c)
    (hr : c.redeemed = false)
    (hup : pyUpper a2 = pyUpper a1)
    (hb2 : is_banned s u2.id = false) :
    (redeem s u1 (a1 :: r1) now1).2 = .success c.prize ∧
    (redeem ((redeem s u1 (a1 :: r1) now1).1) u2 (a2 :: r2) now2).2 =
      .alreadyRedeemed (some (mkRedeemer u1 now1)) ∧
    (redeem ((redeem s u1 (a1 :: r1) now1).1) u2 (a2 :: r2) now2).1.codes =
      ((redeem s u1 (a1 :: r1) now1).1).codes ∧
    ∀ calls, alist_lookup
        (runRedeems ((redeem s u1 (a1 :: r1) now1).1) calls).codes (pyUpper a1) =
      some { c with redeemed := true, redeemer := some (mkRedeemer u1 now1) } := by
  obtain ⟨h1, h2, h3, h4⟩ :=
    redeem_twice_first_snapshot_kept r1 r2 now1 now2 hb1 hc hr hup hb2
  exact ⟨h1, h3, h4,
    fun calls => runRedeems_preserves_redeemed_entry calls rfl _ h2⟩

/-- Witness for C1 at a concrete state: one fresh code `AB`, user 1 redeems
`ab`, then user 2 attempts `AB`. -/
theorem redeem_first_come_first_served_witness :
    (redeem ⟨[("AB", freshCode "t0")], [], []⟩ ⟨1, none, none, none⟩
      ["ab"] "t1").2 = .success "No prize set" ∧
    (redeem ((redeem ⟨[("AB", freshCode "t0")], [], []⟩ ⟨1, none, none, none⟩
        ["ab"] "t1").1) ⟨2, none, none, none⟩ ["AB"] "t2").2 =
      .alreadyRedeemed (some (mkRedeemer ⟨1, none, none, none⟩ "t1")) := by
  have h := redeem_first_come_first_served ⟨[("AB", freshCode "t0")], [], []⟩
    ⟨1, none, none, none⟩ ⟨2, none, none, none⟩ "ab" "AB" [] [] "t1" "t2"
    (freshCode "t0") (by decide) (by decide) (by decide) (by decide) (by decide)
  exact ⟨h.1, h.2.1⟩

/-- C2 (amended): after any sequence of redeem, addcode, gencode and
resetgiveaway operations (no delcode) from the initial empty state, every
user's RedemptionRecord count equals the number of Codes naming that user as
redeemer.  `/delcode` must be excluded: deleting a redeemed code removes the
Code entry but not the user's RedemptionRecord. -/
theorem counts_consistent_without_delcode (adminId : String) (ops : List Op)
    (hops : ∀ op ∈ ops, op.isDelcode = false) (uid : String) :
    userRecordCount (run adminId ops emptyBot) uid =
      codesRedeemedBy (run adminId ops emptyBot) uid :=
  (stateInv_run adminId ops hops emptyBot stateInv_emptyBot).2.2.2 uid

/-- Witness for C2 (amended): addcode then redeem, checked for user 42. -/
theorem counts_consistent_without_delcode_witness :
    (∀ op ∈ ([Op.addcodeOp "9" ["AB"] "t0",
        Op.redeemOp ⟨42, none, none, none⟩ ["AB"] "t1"] : List Op),
      op.isDelcode = false) ∧
    userRecordCount (run "9" [Op.addcodeOp "9" ["AB"] "t0",
        Op.redeemOp ⟨42, none, none, none⟩ ["AB"] "t1"] emptyBot) "42" =
      codesRedeemedBy (run "9" [Op.addcodeOp "9" ["AB"] "t0",
        Op.redeemOp ⟨42, none, none, none⟩ ["AB"] "t1"] emptyBot) "42" :=
  ⟨by decide, counts_consistent_without_delcode "9"
    [Op.addcodeOp "9" ["AB"] "t0",
     Op.redeemOp ⟨42, none, none, none⟩ ["AB"] "t1"] (by decide) "42"⟩

/-- Counterexample to C2 as stated: the operation sequence addcode `AB`,
redeem `AB` by user 42, delcode `AB` reaches a state in which user 42 holds
one RedemptionRecord while no Code names user 42 as redeemer. -/
theorem counts_inconsistent_with_delcode :
    userRecordCount (run "9" [Op.addcodeOp "9" ["AB"] "t0",
        Op.redeemOp ⟨42, none, none, none⟩ ["AB"] "t1",
        Op.delcodeOp "9" ["AB"]] emptyBot) "42" = 1 ∧
    codesRedeemedBy (run "9" [Op.addcodeOp "9" ["AB"] "t0",
        Op.redeemOp ⟨42, none, none, none⟩ ["AB"] "t1",
        Op.delcodeOp "9" ["AB"]] emptyBot) "42" = 0 :=
  ⟨by decide, by decide⟩

/-- C3: the `/stats` handler raises ZeroDivisionError on an empty codes
document — the guard in the f-string on `bot.py` line 323 is literal message
text, not code — while on a non-empty document it reports the exact rate
redeemed/total·100 (here 1 redeemed of 2 codes gives 50). -/
theorem stats_zero_codes_division_error :
    stats "9" "9" emptyBot = .zeroDivisionError ∧
    stats "9" "9" ⟨[("A", ⟨"p", true, some ⟨"42", "u", "f", "l", "t"⟩, "t0"⟩),
        ("B", freshCode "t0")], [], []⟩ =
      .report ⟨2, 1, 1, 0, 0, 0, 50⟩ := by
  constructor
  · rfl
  · simp [stats, freshCode]
    norm_num

/-- C4 (amended): with a parsed count `num`, `/gencode` fails LimitExceeded
and creates nothing when `num > 50`; when it returns ok (the collision loop
finishing within its fuel), it returns exactly `num.toNat` distinct keys,
each previously absent, each beginning with the UPPERCASED prefix
(`prefix.upper()` on `bot.py` line 431 — a lowercase prefix is not itself a
prefix of the keys), and each created with the sentinel prize. -/
theorem gencode_spec (adminId : String) (s : BotState) (a b now : String)
    (rest : List String) (draws : Nat → String) (fuel : Nat) (num : Int)
    (hn : pyToInt a = some num) :
    (50 < num → gencode adminId adminId s (a :: b :: rest) now draws fuel =
        some (s, .limitExceeded)) ∧
    (∀ s2 gen, gencode adminId adminId s (a :: b :: rest) now draws fuel =
        some (s2, .ok gen) →
      num ≤ 50 ∧ gen.length = num.toNat ∧ gen.Nodup ∧
      (∀ c ∈ gen, alist_lookup s.codes c = none ∧
        (∃ suf, c = pyUpper b ++ suf) ∧
        alist_lookup s2.codes c = some (freshCode now))) := by
  constructor
  · intro h50
    simp [gencode, hn, h50]
  · intro s2 gen hok
    by_cases h50 : num > 50
    · simp [gencode, hn, h50] at hok
    · simp [gencode, hn, h50] at hok
      cases hloop : genLoop (pyUpper b) now draws fuel num.toNat 0 s.codes with
      | none => rw [hloop] at hok; simp at hok
      | some pr =>
        obtain ⟨gen0, codes2⟩ := pr
        rw [hloop] at hok
        simp at hok
        obtain ⟨hs2, hgen⟩ := hok
        subst hgen
        obtain ⟨e1, e2, e3, e4⟩ := genLoop_spec _ _ _ _ _ _ _ _ _ hloop
        refine ⟨by omega, e2, e3, ?_⟩
        intro c hc
        obtain ⟨hfr, hsuf⟩ := e4 c hc
        refine ⟨hfr, hsuf, ?_⟩
        rw [← hs2]
        show alist_lookup codes2 c = some (freshCode now)
        rw [e1, alist_lookup_append_of_none _ hfr]
        exact alist_lookup_map_const (freshCode now) _ hc

/-- Witness for C4 (amended): the limit branch at count 51, and a successful
generation of 2 codes whose length is checked. -/
theorem gencode_spec_witness :
    gencode "9" "9" emptyBot ["51", "X"] "t" (fun _ => "AAAA") 1 =
      some (emptyBot, .limitExceeded) ∧
    (["XA0", "XA1"] : List String).length = (2 : Int).toNat := by
  constructor
  · exact (gencode_spec "9" emptyBot "51" "X" "t" [] (fun _ => "AAAA") 1 51
      (by decide)).1 (by decide)
  · exact ((gencode_spec "9" emptyBot "2" "X" "t" []
      (fun i => "A" ++ toString i) 1 2 (by decide)).2
      ⟨[("XA0", freshCode "t"), ("XA1", freshCode "t")], [], []⟩
      ["XA0", "XA1"] (by decide)).2.1

/-- Counterexample to C4 as stated: with the lowercase prefix `x`,
`/gencode 1 x` creates the key `XAAAA` (the handler uppercases the prefix),
which does not begin with the given prefix `x`. -/
theorem gencode_prefix_not_preserved :
    gencode "9" "9" emptyBot ["1", "x"] "t" (fun _ => "AAAA") 1 =
      some (⟨[("XAAAA", freshCode "t")], [], []⟩, .ok ["XAAAA"]) ∧
    "XAAAA".take ("x".length) ≠ "x" ∧
    ("x".data).isPrefixOf ("XAAAA".data) = false :=
  ⟨by decide, by decide, by decide⟩

/-- C5: code keys are uppercased by creation, prize assignment, redemption
and deletion alike.  Concretely: `ABC123` is created and given prize
"iPhone 15"; user 42 redeems the lowercase `abc123` and wins "iPhone 15";
user 43 then redeems `ABC123` and fails AlreadyRedeemed with user 42 (id
"42") reported as redeemer; `delcode abc123` removes `ABC123`. -/
theorem code_key_normalization_scenario :
    (addcode "9" "9" emptyBot ["ABC123"] "t0").2 = .ok ∧
    (addprize "9" "9" (addcode "9" "9" emptyBot ["ABC123"] "t0").1
      ["ABC123", "iPhone", "15"]).2 = .ok ∧
    (redeem ((addprize "9" "9" (addcode "9" "9" emptyBot ["ABC123"] "t0").1
        ["ABC123", "iPhone", "15"]).1) ⟨42, some "alice", some "Alice", none⟩
      ["abc123"] "t1").2 = .success "iPhone 15" ∧
    (redeem ((redeem ((addprize "9" "9"
        (addcode "9" "9" emptyBot ["ABC123"] "t0").1
        ["ABC123", "iPhone", "15"]).1) ⟨42, some "alice", some "Alice", none⟩
        ["abc123"] "t1").1) ⟨43, some "bob", some "Bob", none⟩
      ["ABC123"] "t2").2 =
      .alreadyRedeemed (some ⟨"42", "alice", "Alice", "N/A", "t1"⟩) ∧
    (delcode "9" "9" ((redeem ((redeem ((addprize "9" "9"
        (addcode "9" "9" emptyBot ["ABC123"] "t0").1
        ["ABC123", "iPhone", "15"]).1) ⟨42, some "alice", some "Alice", none⟩
        ["abc123"] "t1").1) ⟨43, some "bob", some "Bob", none⟩
        ["ABC123"] "t2").1) ["abc123"]).2 = .ok ∧
    alist_lookup ((delcode "9" "9" ((redeem ((redeem ((addprize "9" "9"
        (addcode "9" "9" emptyBot ["ABC123"] "t0").1
        ["ABC123", "iPhone", "15"]).1) ⟨42, some "alice", some "Alice", none⟩
        ["abc123"] "t1").1) ⟨43, some "bob", some "Bob", none⟩
        ["ABC123"] "t2").1) ["abc123"]).1).codes "ABC123" = none := by
  refine ⟨by decide, by decide, by decide, by decide, by decide, by decide⟩

/-- C6: `/resetgiveaway` clears `redeemed`/`redeemer` on every Code and
empties every User's redemption sequence; afterwards a previously-redeemed
code can be redeemed exactly once — the first attempt succeeds, a second
attempt fails AlreadyRedeemed. -/
theorem resetgiveaway_full_clear (adminId : String) (s : BotState)
    (u1 u2 : Identity) (a : String) (r1 r2 : List String)
    (now1 now2 : String) (c : Code)
    (hb1 : is_banned s u1.id = false) (hb2 : is_banned s u2.id = false)
    (hc : alist_lookup s.codes (pyUpper a) = some c)
    (_hprev : c.redeemed = true) :
    (∀ p ∈ ((resetgiveaway adminId adminId s).1).codes,
      p.2.redeemed = false ∧ p.2.redeemer = none) ∧
    (∀ p ∈ ((resetgiveaway adminId adminId s).1).users,
      p.2.redeemed_codes = []) ∧
    (redeem ((resetgiveaway adminId adminId s).1) u1 (a :: r1) now1).2 =
      .success c.prize ∧
    (redeem ((redeem ((resetgiveaway adminId adminId s).1) u1
        (a :: r1) now1).1) u2 (a :: r2) now2).2 =
      .alreadyRedeemed (some (mkRedeemer u1 now1)) := by
  rw [resetgiveaway_state]
  have hc0 : alist_lookup (alist_mapv
      (fun c0 => { c0 with redeemed := false, redeemer := none }) s.codes)
      (pyUpper a) = some { c with redeemed := false, redeemer := none } := by
    rw [alist_lookup_mapv, hc]
    rfl
  obtain ⟨h1, h2, h3, h4⟩ := redeem_twice_first_snapshot_kept
    (s := { s with
      codes := alist_mapv
        (fun c0 => { c0 with redeemed := false, redeemer := none }) s.codes,
      users := alist_mapv
        (fun u => { u with redeemed_codes := [] }) s.users })
    r1 r2 now1 now2 (by simpa [is_banned] using hb1) hc0 rfl rfl
    (by simpa [is_banned] using hb2)
  refine ⟨?_, ?_, h1, h3⟩
  · intro p hp
    simp [alist_mapv] at hp
    obtain ⟨k, c0, hkc, hpe⟩ := hp
    rw [← hpe]
    exact ⟨rfl, rfl⟩
  · intro p hp
    simp [alist_mapv] at hp
    obtain ⟨k, u0, hku, hpe⟩ := hp
    rw [← hpe]

/-- Witness for C6: a single redeemed code `AB` with its redemption history,
reset and redeemed again by users 1 and 2. -/
theorem resetgiveaway_full_clear_witness :
    (redeem ((resetgiveaway "9" "9"
        ⟨[("AB", ⟨"pz", true, some ⟨"5", "u", "f", "l", "t"⟩, "t0"⟩)],
         [("5", ⟨"u", "f", "l", "tj", [⟨"AB", "pz", "t"⟩]⟩)], []⟩).1)
      ⟨1, none, none, none⟩ ["AB"] "t1").2 = .success "pz" ∧
    (redeem ((redeem ((resetgiveaway "9" "9"
        ⟨[("AB", ⟨"pz", true, some ⟨"5", "u", "f", "l", "t"⟩, "t0"⟩)],
         [("5", ⟨"u", "f", "l", "tj", [⟨"AB", "pz", "t"⟩]⟩)], []⟩).1)
        ⟨1, none, none, none⟩ ["AB"] "t1").1) ⟨2, none, none, none⟩
      ["AB"] "t2").2 =
      .alreadyRedeemed (some (mkRedeemer ⟨1, none, none, none⟩ "t1")) := by
  have h := resetgiveaway_full_clear "9"
    ⟨[("AB", ⟨"pz", true, some ⟨"5", "u", "f", "l", "t"⟩, "t0"⟩)],
     [("5", ⟨"u", "f", "l", "tj", [⟨"AB", "pz", "t"⟩]⟩)], []⟩
    ⟨1, none, none, none⟩ ⟨2, none, none, none⟩ "AB" [] [] "t1" "t2"
    ⟨"pz", true, some ⟨"5", "u", "f", "l", "t"⟩, "t0"⟩
    (by decide) (by decide) (by decide) (by decide)
  exact ⟨h.2.2.1, h.2.2.2⟩

/-- C7: `banUser` called by the admin on the admin's own id fails
CannotBanSelf leaving the whole state unchanged, and consequently from any
state whose banned list avoids the admin id (in particular the initial empty
state) no sequence of operations ever puts the admin id into the banned
list. -/
theorem admin_never_banned (adminId : String) (s : BotState)
    (rest : List String) :
    ban_user adminId adminId s (adminId :: rest) = (s, .cannotBanSelf) ∧
    (adminId ∉ s.banned → ∀ ops : List Op,
      adminId ∉ (run adminId ops s).banned) := by
  constructor
  · simp [ban_user, str_of_arg]
  · intro h ops
    exact run_admin_not_banned adminId ops s h

/-- Witness for C7: admin "9" cannot ban itself on the empty state, and
stays outside the banned list after banning and unbanning user 42. -/
theorem admin_never_banned_witness :
    ban_user "9" "9" emptyBot ["9"] = (emptyBot, .cannotBanSelf) ∧
    "9" ∉ (run "9" [Op.banOp "9" ["42"], Op.unbanOp "9" ["42"]]
      emptyBot).banned := by
  have h := admin_never_banned "9" emptyBot []
  exact ⟨h.1, h.2 (by decide) _⟩

/-- C8: `register_user` is idempotent — a second call with the same id
returns the state of the first call unchanged and does not persist — and it
persists the Users document exactly when the id was absent. -/
theorem register_user_idempotent (s : BotState) (u : Identity)
    (t1 t2 : String) :
    register_user ((register_user s u t1).1) u t2 =
      ((register_user s u t1).1, false) ∧
    ((register_user s u t1).2 = true ↔
      alist_lookup s.users (toString u.id) = none) := by
  cases h : alist_lookup s.users (toString u.id) with
  | some usr =>
    constructor
    · simp [register_user, h]
    · simp [register_user, h]
  | none =>
    have h2 : alist_lookup (s.users ++ [(toString u.id, mkUser u t1)])
        (toString u.id) = some (mkUser u t1) :=
      alist_lookup_append_singleton_self _ h
    constructor
    · simp [register_user, h, h2]
    · simp [register_user, h]

/-- C9: frame conditions of failed redemptions.  A Banned failure changes
nothing at all (the user is not even registered); registration itself leaves
Codes and Banned untouched and at most appends the attempting user with an
empty redemption sequence; InvalidCode and AlreadyRedeemed failures return
exactly the registered state. -/
theorem redeem_failure_frame (s : BotState) (u : Identity)
    (args : List String) (now : String) :
    (is_banned s u.id = true → redeem s u args now = (s, .banned)) ∧
    (((register_user s u now).1).codes = s.codes ∧
     ((register_user s u now).1).banned = s.banned ∧
     (((register_user s u now).1).users = s.users ∨
       (alist_lookup s.users (toString u.id) = none ∧
        ((register_user s u now).1).users =
          s.users ++ [(toString u.id, mkUser u now)] ∧
        (mkUser u now).redeemed_codes = []))) ∧
    (∀ a rest, args = a :: rest → is_banned s u.id = false →
      (alist_lookup s.codes (pyUpper a) = none →
        redeem s u args now = ((register_user s u now).1, .invalidCode)) ∧
      (∀ c, alist_lookup s.codes (pyUpper a) = some c → c.redeemed = true →
        redeem s u args now =
          ((register_user s u now).1, .alreadyRedeemed c.redeemer))) := by
  refine ⟨fun h => redeem_of_banned args now h,
    ⟨register_user_codes s u now, register_user_banned s u now, ?_⟩, ?_⟩
  · rcases register_user_users_cases s u now with h | ⟨h1, h2⟩
    · exact Or.inl h
    · exact Or.inr ⟨h1, h2, rfl⟩
  · rintro a rest rfl hb
    exact ⟨fun hc => redeem_of_invalid rest now hb hc,
           fun c hc hr => redeem_of_already rest now hb hc hr⟩

/-- Witness for C9: a banned user's attempt leaves the state untouched, and
an unbanned user's attempt at a nonexistent code only registers the user. -/
theorem redeem_failure_frame_witness :
    redeem ⟨[], [], ["7"]⟩ ⟨7, none, none, none⟩ ["A"] "t" =
      (⟨[], [], ["7"]⟩, .banned) ∧
    redeem emptyBot ⟨7, none, none, none⟩ ["A"] "t" =
      ((register_user emptyBot ⟨7, none, none, none⟩ "t").1, .invalidCode) := by
  refine ⟨(redeem_failure_frame ⟨[], [], ["7"]⟩ ⟨7, none, none, none⟩
    ["A"] "t").1 (by decide), ?_⟩
  exact ((redeem_failure_frame emptyBot ⟨7, none, none, none⟩
    ["A"] "t").2.2 "A" [] rfl (by decide)).1 (by decide)

/-- C10: the `str(...)` conversion in `/ban` never fails on a string
argument, so the Invalid-user-ID branch is unreachable, and any argument
other than the admin id — numeric or not — that is not yet banned is
appended verbatim to the banned list. -/
theorem ban_user_never_invalid_argument (adminId caller : String)
    (s : BotState) (args : List String) :
    (ban_user adminId caller s args).2 ≠ .invalidArgument ∧
    (∀ a rest, args = a :: rest → caller = adminId → a ≠ adminId →
      a ∉ s.banned →
      ban_user adminId caller s args =
        ({ s with banned := s.banned ++ [a] }, .nowBanned)) := by
  constructor
  · by_cases ha : caller = adminId
    · cases args with
      | nil => simp [ban_user, ha]
      | cons a rest =>
        by_cases h1 : a = adminId
        · simp [ban_user, ha, str_of_arg, h1]
        · by_cases h2 : a ∈ s.banned <;>
            simp [ban_user, ha, str_of_arg, h1, h2]
    · simp [ban_user, ha]
  · rintro a rest rfl ha h1 h2
    subst ha
    simp [ban_user, str_of_arg, h1, h2]

/-- Witness for C10: the non-numeric argument `abc` is banned verbatim. -/
theorem ban_user_never_invalid_argument_witness :
    (ban_user "9" "9" emptyBot ["abc"]).2 ≠ .invalidArgument ∧
    ban_user "9" "9" emptyBot ["abc"] = (⟨[], [], ["abc"]⟩, .nowBanned) := by
  refine ⟨(ban_user_never_invalid_argument "9" "9" emptyBot ["abc"]).1, ?_⟩
  have h := (ban_user_never_invalid_argument "9" "9" emptyBot ["abc"]).2
    "abc" [] rfl rfl (by decide) (by decide)
  simpa using h
